import Mathlib

/-!
Verification of the event-management application (`src/app.py`) against its
specification.  The Python module keeps a list of event dictionaries in
session state; the functions `add_event`, `delete_event`, `get_event_by_id`,
`sort_events` and the filtering logic of `view_events_tab` are embedded below
as pure Lean functions over explicit state.
-/

namespace EventApp

/-- The form fields collected by the Create/Edit form (`create_event_tab`,
app.py lines 101-108): the Python dict `event_data` with keys `title`,
`date`, `time`, `location`, `category`, `description`, all strings. -/
structure EventData where
  title : String
  date : String
  time : String
  location : String
  category : String
  description : String
  deriving DecidableEq, Repr

/-- A stored event: the form fields plus the `id` key that `add_event`
attaches (`event_data['id'] = datetime.now().timestamp()`, app.py line 33).
The timestamp is modelled as a natural number; the claims only compare ids
for equality and freshness. -/
structure Event where
  id : Nat
  title : String
  date : String
  time : String
  location : String
  category : String
  description : String
  deriving DecidableEq, Repr

/-- Building the stored dict `{**event_data, 'id': i}` from the form data. -/
def Event.ofData (d : EventData) (i : Nat) : Event :=
  ⟨i, d.title, d.date, d.time, d.location, d.category, d.description⟩

/-- The session state the claims depend on: `st.session_state.events` and
`st.session_state.editing_id` (`None` in Python is `none` here).  The
`current_tab` field is pure presentation and is not modelled. -/
structure AppState where
  events : List Event
  editing_id : Option Nat
  deriving DecidableEq, Repr

/-- The ids currently stored, in store order. -/
def eventIds (events : List Event) : List Nat :=
  events.map Event.id

/-- The edit branch of `add_event` (app.py lines 26-28): find the index of
the first event whose `id` equals `editing_id`; if found (`index != -1`)
replace that entry by `{**event_data, 'id': editing_id}`; otherwise leave
the list as it is. -/
def updateById (eid : Nat) (d : EventData) : List Event → List Event
  | [] => []
  | e :: es => if e.id = eid then Event.ofData d eid :: es else e :: updateById eid d es

/-- `add_event(event_data)` (app.py lines 20-39).  When `editing_id` is not
`None` it runs the edit branch and then sets `editing_id = None`; otherwise
it appends a new event whose id is the current clock reading
(`datetime.now().timestamp()`), passed here as `now`.  In the create branch
`editing_id` was already `none` and stays `none`. -/
def add_event (event_data : EventData) (now : Nat) (st : AppState) : AppState :=
  match st.editing_id with
  | some eid => ⟨updateById eid event_data st.events, none⟩
  | none => ⟨st.events ++ [Event.ofData event_data now], none⟩

/-- `delete_event(event_id)` (app.py lines 42-47): keep every event whose id
differs from `event_id`. -/
def delete_event (event_id : Nat) (events : List Event) : List Event :=
  events.filter (fun e => e.id != event_id)

/-- `delete_event` with its Python return value made explicit: the function
body has no `return` statement, so the call evaluates to `None`, modelled as
`(none : Option Bool)` next to the new store. -/
def delete_event_ret (event_id : Nat) (events : List Event) : List Event × Option Bool :=
  (delete_event event_id events, none)

/-- `get_event_by_id(event_id)` (app.py lines 54-56). -/
def get_event_by_id (event_id : Nat) (events : List Event) : Option Event :=
  events.find? (fun e => e.id == event_id)

/-- `start_edit_event(event_id)` (app.py lines 49-52); the tab switch is
presentation only. -/
def start_edit_event (event_id : Nat) (st : AppState) : AppState :=
  ⟨st.events, some event_id⟩

/-- The submit handler of the Create/Edit form (app.py lines 97-109): if the
title is empty it shows the error message and leaves the state untouched;
otherwise it builds `event_data` and calls `add_event`.  The result pairs
the resulting session state with the displayed error message, if any. -/
def create_event_tab_submit (event_data : EventData) (now : Nat) (st : AppState) :
    AppState × Option String :=
  if event_data.title = "" then (st, some "Event Title is required!")
  else (add_event event_data now st, none)

/-! ### Search and filter (`view_events_tab`, app.py lines 127-140) -/

/-- Python `str.lower()`: lower-case every character. -/
def strLower (s : String) : String :=
  ⟨s.data.map Char.toLower⟩

/-- Does `needle` occur at the start of `hay`? -/
def matchFrom : List Char → List Char → Bool
  | [], _ => true
  | _ :: _, [] => false
  | a :: as, b :: bs => a == b && matchFrom as bs

/-- Python's substring test `needle in hay`, on character lists: `needle`
occurs at some position of `hay` (the empty needle always matches). -/
def strIn (needle : List Char) : List Char → Bool
  | [] => matchFrom needle []
  | c :: rest => matchFrom needle (c :: rest) || strIn needle rest

/-- Python `needle in hay` on strings. -/
def pyIn (needle hay : String) : Bool :=
  strIn needle.data hay.data

/-- `matches_search` (app.py lines 131-133): the lowered query occurs in the
lowered title, description or location. -/
def matches_search (search_query : String) (e : Event) : Bool :=
  pyIn (strLower search_query) (strLower e.title) ||
  pyIn (strLower search_query) (strLower e.description) ||
  pyIn (strLower search_query) (strLower e.location)

/-- `matches_category` (app.py line 135). -/
def matches_category (category_filter : String) (e : Event) : Bool :=
  category_filter == "All Categories" || e.category == category_filter

/-- The filtering loop of `view_events_tab` (app.py lines 127-138): keep the
events matching both tests, in store order.  The surrounding
`if all_events:` only short-circuits the empty list, whose filter is `[]`
anyway. -/
def search_and_filter (events : List Event) (search_query category_filter : String) :
    List Event :=
  events.filter (fun e => matches_search search_query e && matches_category category_filter e)

/-! ### Date parsing and sorting (`sort_events`, app.py lines 58-60)

`sort_events` sorts by the key
`datetime.strptime(f"{x['date']} {x['time']}", "%Y-%m-%d %H:%M")`, raising
`ValueError` when some event's key does not parse.  CPython's `_strptime`
compiles this format — whitespace in a format string becomes `\s+` — to the
regex

  `(?P<Y>\d\d\d\d)-(?P<m>1[0-2]|0[1-9]|[1-9])-`
  `(?P<d>3[0-1]|[1-2]\d|0[1-9]|[1-9]| [1-9])\s+`
  `(?P<H>2[0-3]|[0-1]\d|\d):(?P<M>[0-5]\d|\d)`

which must consume the whole string, where `\d` matches any Unicode decimal
digit (category Nd), `\s` any Python whitespace character, and the bracket
classes only the listed ASCII characters.  The matched fields go through
`int(...)` (digit values compose positionally in any script) and the final
`datetime` constructor rejects a day beyond the month's length and a year
below 1.  The embedding follows the regex alternative by alternative in
order.  Backtracking out of an accepted longer alternative can never
rescue a parse here: each field is followed by a literal `-`, `:`, a
mandatory whitespace run, or the end-of-input check, and the extra
character surrendered by backtracking is always a digit, which none of
those can match — so this sequential parse is equivalent to the regex
(checked exhaustively against CPython 3.11's behaviour, including the
whitespace-run, Unicode-digit and space-day cases). -/

/-- The base code points of the Unicode decimal-digit blocks (category Nd,
Unicode 14 as shipped with CPython 3.11); each block holds the digits 0-9
in order.  This is the character class `\d` of the strptime regexes. -/
def ndBases : List Nat :=
  [0x30, 0x660, 0x6F0, 0x7C0, 0x966, 0x9E6, 0xA66, 0xAE6, 0xB66, 0xBE6,
   0xC66, 0xCE6, 0xD66, 0xDE6, 0xE50, 0xED0, 0xF20, 0x1040, 0x1090, 0x17E0,
   0x1810, 0x1946, 0x19D0, 0x1A80, 0x1A90, 0x1B50, 0x1BB0, 0x1C40, 0x1C50,
   0xA620, 0xA8D0, 0xA900, 0xA9D0, 0xA9F0, 0xAA50, 0xABF0, 0xFF10, 0x104A0,
   0x10D30, 0x11066, 0x110F0, 0x11136, 0x111D0, 0x112F0, 0x11450, 0x114D0,
   0x11650, 0x116C0, 0x11730, 0x118E0, 0x11950, 0x11C50, 0x11D50, 0x11DA0,
   0x16A60, 0x16AC0, 0x16B50, 0x1D7CE, 0x1D7D8, 0x1D7E2, 0x1D7EC, 0x1D7F6,
   0x1E140, 0x1E2F0, 0x1E950, 0x1FBF0]

/-- The decimal-digit block a code point belongs to, if any. -/
def ndBase (n : Nat) : Option Nat :=
  ndBases.find? (fun b => b ≤ n && n < b + 10)

/-- `\d`: a Unicode decimal digit. -/
def isNd (c : Char) : Bool :=
  (ndBase c.toNat).isSome

/-- The numeric value of a Unicode decimal digit (0 on non-digits; only
ever used under an `isNd` guard). -/
def ndVal (c : Char) : Nat :=
  match ndBase c.toNat with
  | some b => c.toNat - b
  | none => 0

/-- The code points matched by `\s` in Python str patterns (equivalently,
the characters with `str.isspace()` true). -/
def pyWhitespace : List Nat :=
  [0x9, 0xA, 0xB, 0xC, 0xD, 0x1C, 0x1D, 0x1E, 0x1F, 0x20, 0x85, 0xA0,
   0x1680, 0x2000, 0x2001, 0x2002, 0x2003, 0x2004, 0x2005, 0x2006, 0x2007,
   0x2008, 0x2009, 0x200A, 0x2028, 0x2029, 0x202F, 0x205F, 0x3000]

/-- `\s`: a Python whitespace character. -/
def isPySpace (c : Char) : Bool :=
  pyWhitespace.contains c.toNat

/-- An ASCII character-class test `[lo-hi]` by code point. -/
def asciiBetween (lo hi : Nat) (c : Char) : Bool :=
  lo ≤ c.toNat && c.toNat ≤ hi

/-- `%Y` = `\d\d\d\d`: exactly four Unicode digits. -/
def parseYear4 : List Char → Option (Nat × List Char)
  | c1 :: c2 :: c3 :: c4 :: rest =>
    if isNd c1 && isNd c2 && isNd c3 && isNd c4 then
      some (((ndVal c1 * 10 + ndVal c2) * 10 + ndVal c3) * 10 + ndVal c4, rest)
    else none
  | _ => none

/-- `%m` = `1[0-2]|0[1-9]|[1-9]` (ASCII classes only). -/
def parseMonth : List Char → Option (Nat × List Char)
  | c1 :: c2 :: rest =>
    if c1 == '1' && asciiBetween 48 50 c2 then some (10 + (c2.toNat - 48), rest)
    else if c1 == '0' && asciiBetween 49 57 c2 then some (c2.toNat - 48, rest)
    else if asciiBetween 49 57 c1 then some (c1.toNat - 48, c2 :: rest)
    else none
  | [c1] => if asciiBetween 49 57 c1 then some (c1.toNat - 48, []) else none
  | [] => none

/-- `%d` = `3[0-1]|[1-2]\d|0[1-9]|[1-9]| [1-9]` — the second digit of the
`[1-2]\d` form may be any Unicode digit, and the last alternative is a
space followed by an ASCII digit. -/
def parseDay : List Char → Option (Nat × List Char)
  | c1 :: c2 :: rest =>
    if c1 == '3' && asciiBetween 48 49 c2 then some (30 + (c2.toNat - 48), rest)
    else if asciiBetween 49 50 c1 && isNd c2 then
      some (10 * (c1.toNat - 48) + ndVal c2, rest)
    else if c1 == '0' && asciiBetween 49 57 c2 then some (c2.toNat - 48, rest)
    else if asciiBetween 49 57 c1 then some (c1.toNat - 48, c2 :: rest)
    else if c1 == ' ' && asciiBetween 49 57 c2 then some (c2.toNat - 48, rest)
    else none
  | [c1] => if asciiBetween 49 57 c1 then some (c1.toNat - 48, []) else none
  | [] => none

/-- `%H` = `2[0-3]|[0-1]\d|\d`. -/
def parseHour : List Char → Option (Nat × List Char)
  | c1 :: c2 :: rest =>
    if c1 == '2' && asciiBetween 48 51 c2 then some (20 + (c2.toNat - 48), rest)
    else if asciiBetween 48 49 c1 && isNd c2 then
      some (10 * (c1.toNat - 48) + ndVal c2, rest)
    else if isNd c1 then some (ndVal c1, c2 :: rest)
    else none
  | [c1] => if isNd c1 then some (ndVal c1, []) else none
  | [] => none

/-- `%M` = `[0-5]\d|\d`. -/
def parseMinute : List Char → Option (Nat × List Char)
  | c1 :: c2 :: rest =>
    if asciiBetween 48 53 c1 && isNd c2 then
      some (10 * (c1.toNat - 48) + ndVal c2, rest)
    else if isNd c1 then some (ndVal c1, c2 :: rest)
    else none
  | [c1] => if isNd c1 then some (ndVal c1, []) else none
  | [] => none

/-- Drop a run of whitespace characters. -/
def dropWs : List Char → List Char
  | c :: cs => if isPySpace c then dropWs cs else c :: cs
  | [] => []

/-- `\s+`: at least one whitespace character, consumed greedily (what can
follow here is a digit, never whitespace, so greed is harmless). -/
def parseWs1 : List Char → Option (List Char)
  | c :: cs => if isPySpace c then some (dropWs cs) else none
  | [] => none

/-- Consume one expected literal character. -/
def expectChar (ch : Char) : List Char → Option (List Char)
  | c :: rest => if c == ch then some rest else none
  | [] => none

/-- A parsed `datetime`: year, month, day, hour, minute. -/
structure DT where
  y : Nat
  mo : Nat
  d : Nat
  h : Nat
  mi : Nat
  deriving DecidableEq, Repr

/-- Gregorian leap year, as in Python's `datetime`. -/
def isLeap (y : Nat) : Bool :=
  y % 4 == 0 && (y % 100 != 0 || y % 400 == 0)

/-- Days in a month, as validated by the `datetime` constructor. -/
def daysInMonth (y mo : Nat) : Nat :=
  if mo == 2 then (if isLeap y then 29 else 28)
  else if mo == 4 || mo == 6 || mo == 9 || mo == 11 then 30
  else 31

/-- `datetime.strptime(s, "%Y-%m-%d %H:%M")`: `some` on success, `none` for
the `ValueError` cases (regex mismatch, unconverted trailing input, day out
of range for the month, year 0). -/
def strptimeDT (s : String) : Option DT := do
  let (y, cs) ← parseYear4 s.data
  let cs ← expectChar '-' cs
  let (mo, cs) ← parseMonth cs
  let cs ← expectChar '-' cs
  let (d, cs) ← parseDay cs
  let cs ← parseWs1 cs
  let (h, cs) ← parseHour cs
  let cs ← expectChar ':' cs
  let (mi, cs) ← parseMinute cs
  if cs.isEmpty && 1 ≤ y && d ≤ daysInMonth y mo then
    some ⟨y, mo, d, h, mi⟩
  else none

/-- The sort key of one event: `f"{x['date']} {x['time']}"` parsed. -/
def event_dt (e : Event) : Option DT :=
  strptimeDT (e.date ++ " " ++ e.time)

/-- The comparison order of two `datetime` values, packed into one natural
number: lexicographic on (year, month, day, hour, minute), encoded in mixed
radix 100 (every field except the year is below 100). -/
def dtKey (t : DT) : Nat :=
  (((t.y * 100 + t.mo) * 100 + t.d) * 100 + t.h) * 100 + t.mi

/-- Comparison of keyed events by their `datetime` key, as Python's `sorted`
compares the values of the `key` function. -/
def dtKeyLe (a b : DT × Event) : Prop :=
  dtKey a.1 ≤ dtKey b.1

instance : DecidableRel dtKeyLe :=
  fun a b => inferInstanceAs (Decidable (dtKey a.1 ≤ dtKey b.1))

instance : IsTotal (DT × Event) dtKeyLe :=
  ⟨fun a b => Nat.le_total (dtKey a.1) (dtKey b.1)⟩

instance : IsTrans (DT × Event) dtKeyLe :=
  ⟨fun _ _ _ => Nat.le_trans⟩

/-- The chronological order of two parsed `datetime` values, spelled out:
lexicographic on (year, month, day, hour, minute) — a true calendar date
plus time-of-day, not a string comparison. -/
def dtLex (a b : DT) : Prop :=
  a.y < b.y ∨ (a.y = b.y ∧ (a.mo < b.mo ∨ (a.mo = b.mo ∧ (a.d < b.d ∨ (a.d = b.d ∧
    (a.h < b.h ∨ (a.h = b.h ∧ a.mi ≤ b.mi)))))))

/-- Two events are in chronological order when both their `(date, time)`
keys parse and the parsed values compare lexicographically. -/
def chronoLe (a b : Event) : Prop :=
  ∃ ta tb, event_dt a = some ta ∧ event_dt b = some tb ∧ dtLex ta tb

/-- The `ValueError` that `datetime.strptime` raises on a malformed date or
time; the specification calls it `MalformedDateError`. -/
inductive SortError where
  | malformedDate
  deriving DecidableEq, Repr

/-- Compute the sort key of every event, left to right; `none` as soon as
one key fails to parse (the `ValueError` escaping from `sorted`). -/
def keyedEvents : List Event → Option (List (DT × Event))
  | [] => some []
  | e :: es =>
    match event_dt e, keyedEvents es with
    | some t, some rest => some ((t, e) :: rest)
    | _, _ => none

/-- `sort_events(event_list)` (app.py lines 58-60): stable sort ascending by
the parsed `datetime` key.  Python's `sorted` is a stable sort and every
stable sort by the same key computes the same list; it is realised here by
insertion sort. -/
def sort_events (events : List Event) : Except SortError (List Event) :=
  match keyedEvents events with
  | none => Except.error SortError.malformedDate
  | some keyed => Except.ok ((keyed.insertionSort dtKeyLe).map Prod.snd)

/-! ### Operation traces

For the store-invariant claim the three store-mutating operations are run in
sequence from the empty store.  A create carries the clock reading
(`datetime.now().timestamp()`) observed at that call; an update is
`start_edit_event` followed by a submitted form (`add_event` with
`editing_id` set, which ignores the clock); a delete is `delete_event`. -/
inductive Op where
  | create (d : EventData) (now : Nat)
  | update (eid : Nat) (d : EventData)
  | delete (eid : Nat)
  deriving DecidableEq, Repr

/-- One operation applied to the store, through the code's entry points. -/
def applyOp (events : List Event) : Op → List Event
  | .create d now => (add_event d now ⟨events, none⟩).events
  | .update eid d => (add_event d 0 ⟨events, some eid⟩).events
  | .delete eid => delete_event eid events

/-- Run a sequence of operations. -/
def runOps : List Op → List Event → List Event
  | [], events => events
  | op :: ops, events => runOps ops (applyOp events op)

/-- The clock readings observed by the create operations of a trace, in
order. -/
def createIds : List Op → List Nat
  | [] => []
  | .create _ now :: ops => now :: createIds ops
  | .update _ _ :: ops => createIds ops
  | .delete _ :: ops => createIds ops

/-! ### Concrete sample data -/

/-- Sample form data (the spec's event A). -/
def dA : EventData :=
  ⟨"Team Sync", "2024-05-01", "09:00", "", "Meeting", ""⟩

/-- Sample form data (the spec's event B). -/
def dB : EventData :=
  ⟨"Art Workshop", "2024-04-20", "14:00", "Studio 5", "Workshop", ""⟩

/-- Sample form data with an empty title. -/
def dEmpty : EventData :=
  ⟨"", "2024-05-01", "09:00", "", "Meeting", ""⟩

/-- Sample form data with a malformed date. -/
def dBad : EventData :=
  ⟨"Broken", "2024-13-01", "09:00", "", "Other", ""⟩

/-- Sample stored event A with id 1. -/
def evA : Event := Event.ofData dA 1

/-- Sample stored event B with id 2. -/
def evB : Event := Event.ofData dB 2

/-- Sample edited form data for B. -/
def dB2 : EventData :=
  ⟨"Art Workshop II", "2024-04-20", "14:00", "Studio 5", "Workshop", ""⟩

/-- Sample stored event with a malformed date. -/
def evBad : Event := Event.ofData dBad 3

/-- A sample operation trace: two creates, an update of id 1, a delete of
id 2, one more create. -/
def opsDemo : List Op :=
  [Op.create dA 1, Op.create dB 2, Op.update 1 dB2, Op.delete 2, Op.create dA 3]

/-! ## Helper lemmas -/

/-- The edit branch leaves the store unchanged when no event carries the
edited id. -/
theorem updateById_of_not_mem {eid : Nat} {d : EventData} {events : List Event}
    (h : eid ∉ eventIds events) : updateById eid d events = events := by
  induction events with
  | nil => rfl
  | cons e es ih =>
    simp only [eventIds, List.map_cons, List.mem_cons] at h
    push_neg at h
    simp only [updateById]
    rw [if_neg fun he => h.1 he.symm, ih (by simpa [eventIds] using h.2)]

/-- The edit branch replaces the first event carrying the edited id and
leaves everything else in place. -/
theorem updateById_first {d : EventData} {l1 l2 : List Event} {e : Event}
    (h : e.id ∉ eventIds l1) :
    updateById e.id d (l1 ++ e :: l2) = l1 ++ Event.ofData d e.id :: l2 := by
  induction l1 with
  | nil => simp [updateById]
  | cons x xs ih =>
    simp only [eventIds, List.map_cons, List.mem_cons] at h
    push_neg at h
    simp only [List.cons_append, updateById, List.append_eq]
    rw [if_neg fun hx => h.1 hx.symm, ih (by simpa [eventIds] using h.2)]

/-- The edit branch never changes the stored ids. -/
theorem eventIds_updateById (eid : Nat) (d : EventData) (events : List Event) :
    eventIds (updateById eid d events) = eventIds events := by
  induction events with
  | nil => rfl
  | cons e es ih =>
    by_cases he : e.id = eid
    · simp [updateById, he, eventIds, Event.ofData]
    · simp [updateById, he, eventIds] at ih ⊢
      exact ih

/-! ## C10 -/

/-- C10: when `editing_id` is set to an id that no stored event carries,
submitting the form leaves the event list completely unchanged and clears
`editing_id` to `none`. -/
theorem add_event_stale_edit (d : EventData) (now : Nat) (events : List Event) (eid : Nat)
    (h : eid ∉ eventIds events) :
    add_event d now ⟨events, some eid⟩ = ⟨events, none⟩ := by
  simp [add_event, updateById_of_not_mem h]

/-- Witness for C10 at a concrete stale id. -/
theorem add_event_stale_edit_witness :
    (5 ∉ eventIds [evA]) ∧ add_event dB 7 ⟨[evA], some 5⟩ = ⟨[evA], none⟩ :=
  ⟨by decide, add_event_stale_edit dB 7 [evA] 5 (by decide)⟩

/-! ## C2 -/

/-- C2 counterexample: with `editing_id = some 5` over the empty store, the
claim says submit falls back to create and appends the freshly stamped
event; the code does not create anything. -/
theorem add_event_stale_no_create :
    ¬ (add_event dB 7 ⟨[], some 5⟩ = ⟨[Event.ofData dB 7], none⟩) := by
  decide

/-- C2 amended: submit creates (appends a freshly stamped event) only when
`editing_id` is `none`; when `editing_id` is set it runs the update branch
and clears `editing_id`, and in particular when the id resolves to no stored
event it leaves the store unchanged without creating. -/
theorem add_event_dispatch (d : EventData) (now : Nat) (st : AppState) :
    (st.editing_id = none →
      add_event d now st = ⟨st.events ++ [Event.ofData d now], none⟩) ∧
    (∀ eid, st.editing_id = some eid →
      add_event d now st = ⟨updateById eid d st.events, none⟩) ∧
    (∀ eid, st.editing_id = some eid → eid ∉ eventIds st.events →
      add_event d now st = ⟨st.events, none⟩) := by
  refine ⟨fun h => by simp [add_event, h], fun eid h => by simp [add_event, h],
    fun eid h hm => by simp [add_event, h, updateById_of_not_mem hm]⟩

/-- Witness for C2 at concrete states: a create when `editing_id` is
`none`, and no create when `editing_id` is stale. -/
theorem add_event_dispatch_witness :
    add_event dA 7 ⟨[evB], none⟩ = ⟨[evB, Event.ofData dA 7], none⟩ ∧
    add_event dA 7 ⟨[evB], some 5⟩ = ⟨[evB], none⟩ :=
  ⟨(add_event_dispatch dA 7 ⟨[evB], none⟩).1 rfl,
   (add_event_dispatch dA 7 ⟨[evB], some 5⟩).2.2 5 rfl (by decide)⟩

/-! ## C3 -/

/-- C3 counterexample: submitting non-empty form data while `editing_id`
names no stored event terminates normally with no error message at all —
the claimed `NotFoundError` is never reported. -/
theorem update_absent_no_error :
    create_event_tab_submit dA 0 ⟨[], some 5⟩ = (⟨[], none⟩, none) := by
  decide

/-- C3 amended: an update whose id is absent leaves the store unchanged, but
it does not fail: no error is raised (the only message the form can raise is
the empty-title validation), and with a non-empty title the submit succeeds
silently, clearing `editing_id`. -/
theorem update_absent_silent (d : EventData) (now : Nat) (events : List Event) (eid : Nat)
    (h : eid ∉ eventIds events) :
    (create_event_tab_submit d now ⟨events, some eid⟩).1.events = events ∧
    (d.title ≠ "" →
      create_event_tab_submit d now ⟨events, some eid⟩ = (⟨events, none⟩, none)) := by
  constructor
  · by_cases ht : d.title = "" <;>
      simp [create_event_tab_submit, ht, add_event, updateById_of_not_mem h]
  · intro ht
    simp [create_event_tab_submit, ht, add_event, updateById_of_not_mem h]

/-- Witness for C3 amended at a concrete absent id. -/
theorem update_absent_silent_witness :
    (create_event_tab_submit dA 0 ⟨[evB], some 9⟩).1.events = [evB] ∧
    create_event_tab_submit dA 0 ⟨[evB], some 9⟩ = (⟨[evB], none⟩, none) :=
  ⟨(update_absent_silent dA 0 [evB] 9 (by decide)).1,
   (update_absent_silent dA 0 [evB] 9 (by decide)).2 (by decide)⟩

/-! ## C6 -/

/-- C6: updating a stored id with non-empty form data replaces every field
except `id` with the supplied data, keeps the event at its original
position, and leaves every other event unchanged (and clears the edit
session). -/
theorem update_replaces_in_place (d : EventData) (now : Nat) (l1 l2 : List Event) (e : Event)
    (ht : d.title ≠ "") (hfirst : e.id ∉ eventIds l1) :
    create_event_tab_submit d now ⟨l1 ++ e :: l2, some e.id⟩ =
      (⟨l1 ++ Event.ofData d e.id :: l2, none⟩, none) := by
  simp [create_event_tab_submit, ht, add_event, updateById_first hfirst]

/-- Witness for C6: the spec's scenario, editing B's title in place while A
stays untouched. -/
theorem update_replaces_in_place_witness :
    create_event_tab_submit dB2 0 ⟨[evA] ++ evB :: [], some evB.id⟩ =
      (⟨[evA] ++ Event.ofData dB2 evB.id :: [], none⟩, none) :=
  update_replaces_in_place dB2 0 [evA] [] evB (by decide) (by decide)

/-! ## C7 -/

/-- C7: submitting form data with an empty title reports the validation
error and leaves the session state (in particular the store) unchanged. -/
theorem create_empty_title_rejected (d : EventData) (now : Nat) (st : AppState)
    (h : d.title = "") :
    create_event_tab_submit d now st = (st, some "Event Title is required!") := by
  simp [create_event_tab_submit, h]

/-- Witness for C7 at concrete empty-title data. -/
theorem create_empty_title_rejected_witness :
    create_event_tab_submit dEmpty 3 ⟨[evA], none⟩ =
      (⟨[evA], none⟩, some "Event Title is required!") :=
  create_empty_title_rejected dEmpty 3 ⟨[evA], none⟩ rfl

/-! ## C8 -/

/-- C8 counterexample: deleting id 1 from a store that holds an event with
id 1 does remove it, but the call's value is Python's `None`, not the
boolean `True` the claim demands. -/
theorem delete_event_returns_no_bool :
    (1 ∈ eventIds [evA]) ∧ ¬ ((delete_event_ret 1 [evA]).2 = some true) := by
  decide

/-- C8 amended: over a store with distinct ids, deleting an absent id is a
no-op (no error), deleting a present id removes exactly that event and no
other, and in both cases the call returns `None` rather than a boolean
(whether a removal occurred is observable only as the store changing). -/
theorem delete_event_spec (eid : Nat) (events : List Event)
    (hnd : (eventIds events).Nodup) :
    (eid ∉ eventIds events → delete_event_ret eid events = (events, none)) ∧
    (∀ l1 e l2, events = l1 ++ e :: l2 → e.id = eid →
      delete_event_ret eid events = (l1 ++ l2, none)) := by
  constructor
  · intro habs
    have hall : ∀ x ∈ events, (x.id != eid) = true := by
      intro x hx
      simp only [bne_iff_ne, ne_eq]
      intro hxe
      exact habs (hxe ▸ List.mem_map_of_mem Event.id hx)
    simp [delete_event_ret, delete_event, List.filter_eq_self.mpr hall]
  · intro l1 e l2 hev he
    subst hev
    subst he
    simp only [eventIds, List.map_append, List.map_cons] at hnd
    rcases List.nodup_append.mp hnd with ⟨_, h2, hdisj⟩
    have he2 : e.id ∉ l2.map Event.id := (List.nodup_cons.mp h2).1
    have he1 : e.id ∉ l1.map Event.id := fun hm => hdisj hm (List.mem_cons_self _ _)
    have hl1 : ∀ x ∈ l1, (x.id != e.id) = true := by
      intro x hx
      simp only [bne_iff_ne, ne_eq]
      intro hxe
      exact he1 (hxe ▸ List.mem_map_of_mem Event.id hx)
    have hl2 : ∀ x ∈ l2, (x.id != e.id) = true := by
      intro x hx
      simp only [bne_iff_ne, ne_eq]
      intro hxe
      exact he2 (hxe ▸ List.mem_map_of_mem Event.id hx)
    simp [delete_event_ret, delete_event, List.filter_append,
      List.filter_eq_self.mpr hl1, List.filter_eq_self.mpr hl2]

/-- Witness for C8: deleting the present id 2 removes exactly B; deleting
the absent id 5 is a no-op; both calls return `None`. -/
theorem delete_event_spec_witness :
    delete_event_ret 2 [evA, evB] = ([evA], none) ∧
    delete_event_ret 5 [evA, evB] = ([evA, evB], none) :=
  ⟨(delete_event_spec 2 [evA, evB] (by decide)).2 [evA] evB [] rfl rfl,
   (delete_event_spec 5 [evA, evB] (by decide)).1 (by decide)⟩

/-! ## C1 -/

/-- Every id stored after running a trace is one of the clock readings of
the trace's creates (in order): creates append their reading, updates keep
the ids unchanged, deletes only drop entries. -/
theorem eventIds_runOps_sublist (ops : List Op) :
    ∀ s : List Event, List.Sublist (eventIds (runOps ops s)) (eventIds s ++ createIds ops) := by
  induction ops with
  | nil =>
    intro s
    simp [runOps, createIds]
  | cons op ops ih =>
    intro s
    cases op with
    | create d now =>
      have h := ih (s ++ [Event.ofData d now])
      have hids : eventIds (s ++ [Event.ofData d now]) = eventIds s ++ [now] := by
        simp [eventIds, Event.ofData]
      rw [hids, List.append_assoc] at h
      simpa [runOps, applyOp, add_event, createIds] using h
    | update eid d =>
      have h := ih (updateById eid d s)
      rw [eventIds_updateById] at h
      simpa [runOps, applyOp, add_event, createIds] using h
    | delete eid =>
      have h := ih (delete_event eid s)
      have hsub : List.Sublist (eventIds (delete_event eid s)) (eventIds s) :=
        List.Sublist.map Event.id (List.filter_sublist s)
      have hstep : eventIds (runOps (Op.delete eid :: ops) s)
          = eventIds (runOps ops (delete_event eid s)) := by simp [runOps, applyOp]
      rw [hstep]
      exact h.trans (by simpa [createIds] using hsub.append (List.Sublist.refl (createIds ops)))

/-- C1: running any sequence of create/update/delete operations from the
empty store yields a store whose ids are pairwise distinct, provided the
clock readings stamped by the creates are pairwise distinct (the code trusts
`datetime.now().timestamp()` for uniqueness). -/
theorem runOps_unique_ids (ops : List Op) (h : (createIds ops).Nodup) :
    (eventIds (runOps ops [])).Nodup := by
  have hsub := eventIds_runOps_sublist ops []
  simp only [eventIds, List.map_nil, List.nil_append] at hsub
  exact h.sublist hsub

/-- Witness for C1 on a concrete five-operation trace. -/
theorem runOps_unique_ids_witness :
    (createIds opsDemo).Nodup ∧ (eventIds (runOps opsDemo [])).Nodup :=
  ⟨by decide, runOps_unique_ids opsDemo (by decide)⟩

/-! ## C4 -/

/-- The empty needle occurs in every haystack. -/
theorem strIn_nil_left (hay : List Char) : strIn [] hay = true := by
  cases hay <;> simp [strIn, matchFrom]

/-- Python's `"" in s` is always true. -/
theorem pyIn_empty_needle (hay : String) : pyIn "" hay = true :=
  strIn_nil_left hay.data

/-- A non-empty needle never occurs in the empty haystack. -/
theorem pyIn_empty_hay {needle : String} (h : needle ≠ "") : pyIn needle "" = false := by
  have hd : needle.data ≠ [] := by
    intro hd
    exact h (String.ext (hd.trans rfl))
  cases hn : needle.data with
  | nil => exact absurd hn hd
  | cons c cs => simp [pyIn, hn, strIn, matchFrom]

/-- Lowering preserves emptiness. -/
theorem strLower_ne_empty {q : String} (h : q ≠ "") : strLower q ≠ "" := by
  intro hq
  apply h
  apply String.ext
  have hdata : q.data.map Char.toLower = [] := congrArg String.data hq
  simpa using List.map_eq_nil_iff.mp hdata

/-- C4: the filtering loop keeps exactly the events whose category passes
the filter (the all-categories value, or an exact match) and whose lowered
title, description or location contains the lowered query — where an empty
query matches everything; and for an event whose description and location
are empty, a non-empty query matches exactly when it occurs in the lowered
title.  The match test is total: empty optional fields never raise. -/
theorem search_and_filter_spec (events : List Event) (q cat : String) :
    search_and_filter events q cat =
      events.filter (fun e =>
        (decide (cat = "All Categories") || decide (e.category = cat)) &&
        (decide (q = "") || pyIn (strLower q) (strLower e.title) ||
          pyIn (strLower q) (strLower e.description) ||
          pyIn (strLower q) (strLower e.location))) ∧
    (∀ e : Event, q ≠ "" → e.description = "" → e.location = "" →
      (matches_search q e = true ↔ pyIn (strLower q) (strLower e.title) = true)) := by
  constructor
  · apply List.filter_congr
    intro e _
    by_cases hq : q = ""
    · subst hq
      have h0 : strLower "" = "" := rfl
      by_cases hc : cat = "All Categories" <;> by_cases he : e.category = cat <;>
        simp [matches_search, matches_category, h0, pyIn_empty_needle, hc, he, Bool.and_comm]
    · simp only [matches_search, matches_category, hq, decide_False, Bool.false_or]
      by_cases hc : cat = "All Categories" <;> by_cases he : e.category = cat <;>
        simp [hc, he, Bool.and_comm, Bool.or_assoc]
  · intro e hq hd hl
    have hlow : strLower "" = "" := rfl
    rw [matches_search, hd, hl, hlow, pyIn_empty_hay (strLower_ne_empty hq)]
    simp

/-- Witness for C4: over event A (empty description and location), the
query "art" matches exactly through the title. -/
theorem search_and_filter_spec_witness :
    matches_search "art" evA = true ↔ pyIn (strLower "art") (strLower evA.title) = true :=
  (search_and_filter_spec [evA, evB] "art" "All Categories").2 evA (by decide) rfl rfl

/-! ## C5 and C9: parser bounds -/

/-- A Unicode digit's value is at most 9. -/
theorem ndVal_le_nine (c : Char) : ndVal c ≤ 9 := by
  simp only [ndVal]
  cases hb : ndBase c.toNat with
  | none => simp
  | some b =>
    have hp := List.find?_some hb
    simp only [Bool.and_eq_true, decide_eq_true_eq] at hp
    show c.toNat - b ≤ 9
    omega

/-- A month parse yields a value in 1..12. -/
theorem parseMonth_bounds {v : Nat} {cs rest : List Char}
    (h : parseMonth cs = some (v, rest)) : 1 ≤ v ∧ v ≤ 12 := by
  match cs with
  | [] => simp [parseMonth] at h
  | [c1] =>
    simp only [parseMonth] at h
    split_ifs at h with h1
    simp only [asciiBetween, Bool.and_eq_true, decide_eq_true_eq] at h1
    simp only [Option.some.injEq, Prod.mk.injEq] at h
    obtain ⟨hv, -⟩ := h
    omega
  | c1 :: c2 :: rest2 =>
    simp only [parseMonth] at h
    split_ifs at h with h1 h2 h3
    · simp only [asciiBetween, Bool.and_eq_true, beq_iff_eq, decide_eq_true_eq] at h1
      simp only [Option.some.injEq, Prod.mk.injEq] at h
      obtain ⟨hv, -⟩ := h
      omega
    · simp only [asciiBetween, Bool.and_eq_true, beq_iff_eq, decide_eq_true_eq] at h2
      simp only [Option.some.injEq, Prod.mk.injEq] at h
      obtain ⟨hv, -⟩ := h
      omega
    · simp only [asciiBetween, Bool.and_eq_true, decide_eq_true_eq] at h3
      simp only [Option.some.injEq, Prod.mk.injEq] at h
      obtain ⟨hv, -⟩ := h
      omega

/-- A day parse yields a value in 1..31. -/
theorem parseDay_bounds {v : Nat} {cs rest : List Char}
    (h : parseDay cs = some (v, rest)) : 1 ≤ v ∧ v ≤ 31 := by
  match cs with
  | [] => simp [parseDay] at h
  | [c1] =>
    simp only [parseDay] at h
    split_ifs at h with h1
    simp only [asciiBetween, Bool.and_eq_true, decide_eq_true_eq] at h1
    simp only [Option.some.injEq, Prod.mk.injEq] at h
    obtain ⟨hv, -⟩ := h
    omega
  | c1 :: c2 :: rest2 =>
    have h9 := ndVal_le_nine c2
    simp only [parseDay] at h
    split_ifs at h with h1 h2 h3 h4 h5
    · simp only [asciiBetween, Bool.and_eq_true, beq_iff_eq, decide_eq_true_eq] at h1
      simp only [Option.some.injEq, Prod.mk.injEq] at h
      obtain ⟨hv, -⟩ := h
      omega
    · simp only [asciiBetween, Bool.and_eq_true, decide_eq_true_eq] at h2
      simp only [Option.some.injEq, Prod.mk.injEq] at h
      obtain ⟨hv, -⟩ := h
      omega
    · simp only [asciiBetween, Bool.and_eq_true, beq_iff_eq, decide_eq_true_eq] at h3
      simp only [Option.some.injEq, Prod.mk.injEq] at h
      obtain ⟨hv, -⟩ := h
      omega
    · simp only [asciiBetween, Bool.and_eq_true, decide_eq_true_eq] at h4
      simp only [Option.some.injEq, Prod.mk.injEq] at h
      obtain ⟨hv, -⟩ := h
      omega
    · simp only [asciiBetween, Bool.and_eq_true, beq_iff_eq, decide_eq_true_eq] at h5
      simp only [Option.some.injEq, Prod.mk.injEq] at h
      obtain ⟨hv, -⟩ := h
      omega

/-- An hour parse yields a value at most 23. -/
theorem parseHour_bounds {v : Nat} {cs rest : List Char}
    (h : parseHour cs = some (v, rest)) : v ≤ 23 := by
  match cs with
  | [] => simp [parseHour] at h
  | [c1] =>
    have h9 := ndVal_le_nine c1
    simp only [parseHour] at h
    split_ifs at h with h1
    simp only [Option.some.injEq, Prod.mk.injEq] at h
    obtain ⟨hv, -⟩ := h
    omega
  | c1 :: c2 :: rest2 =>
    have h9a := ndVal_le_nine c1
    have h9b := ndVal_le_nine c2
    simp only [parseHour] at h
    split_ifs at h with h1 h2 h3
    · simp only [asciiBetween, Bool.and_eq_true, beq_iff_eq, decide_eq_true_eq] at h1
      simp only [Option.some.injEq, Prod.mk.injEq] at h
      obtain ⟨hv, -⟩ := h
      omega
    · simp only [asciiBetween, Bool.and_eq_true, decide_eq_true_eq] at h2
      simp only [Option.some.injEq, Prod.mk.injEq] at h
      obtain ⟨hv, -⟩ := h
      omega
    · simp only [Option.some.injEq, Prod.mk.injEq] at h
      obtain ⟨hv, -⟩ := h
      omega

/-- A minute parse yields a value at most 59. -/
theorem parseMinute_bounds {v : Nat} {cs rest : List Char}
    (h : parseMinute cs = some (v, rest)) : v ≤ 59 := by
  match cs with
  | [] => simp [parseMinute] at h
  | [c1] =>
    have h9 := ndVal_le_nine c1
    simp only [parseMinute] at h
    split_ifs at h with h1
    simp only [Option.some.injEq, Prod.mk.injEq] at h
    obtain ⟨hv, -⟩ := h
    omega
  | c1 :: c2 :: rest2 =>
    have h9a := ndVal_le_nine c1
    have h9b := ndVal_le_nine c2
    simp only [parseMinute] at h
    split_ifs at h with h1 h2
    · simp only [asciiBetween, Bool.and_eq_true, decide_eq_true_eq] at h1
      simp only [Option.some.injEq, Prod.mk.injEq] at h
      obtain ⟨hv, -⟩ := h
      omega
    · simp only [Option.some.injEq, Prod.mk.injEq] at h
      obtain ⟨hv, -⟩ := h
      omega

/-- The fields produced by `strptime` lie within calendar ranges. -/
theorem strptimeDT_bounds {s : String} {t : DT} (h : strptimeDT s = some t) :
    1 ≤ t.mo ∧ t.mo ≤ 12 ∧ 1 ≤ t.d ∧ t.d ≤ 31 ∧ t.h ≤ 23 ∧ t.mi ≤ 59 := by
  simp only [strptimeDT, bind, Option.bind_eq_some] at h
  obtain ⟨⟨y, cs1⟩, _, h⟩ := h
  obtain ⟨cs2, _, h⟩ := h
  obtain ⟨⟨mo, cs3⟩, hmo, h⟩ := h
  obtain ⟨cs4, _, h⟩ := h
  obtain ⟨⟨d, cs5⟩, hd, h⟩ := h
  obtain ⟨cs6, _, h⟩ := h
  obtain ⟨⟨hh, cs7⟩, hhh, h⟩ := h
  obtain ⟨cs8, _, h⟩ := h
  obtain ⟨⟨mi, cs9⟩, hmi, h⟩ := h
  split_ifs at h
  simp only [Option.some.injEq] at h
  subst h
  obtain ⟨hmo1, hmo2⟩ := parseMonth_bounds hmo
  obtain ⟨hd1, hd2⟩ := parseDay_bounds hd
  exact ⟨hmo1, hmo2, hd1, hd2, parseHour_bounds hhh, parseMinute_bounds hmi⟩

/-- Within calendar ranges, the packed key compares exactly as the
lexicographic chronological order. -/
theorem dtKey_le_iff_dtLex {a b : DT}
    (ha : 1 ≤ a.mo ∧ a.mo ≤ 12 ∧ 1 ≤ a.d ∧ a.d ≤ 31 ∧ a.h ≤ 23 ∧ a.mi ≤ 59)
    (hb : 1 ≤ b.mo ∧ b.mo ≤ 12 ∧ 1 ≤ b.d ∧ b.d ≤ 31 ∧ b.h ≤ 23 ∧ b.mi ≤ 59) :
    dtKey a ≤ dtKey b ↔ dtLex a b := by
  obtain ⟨a1, a2, a3, a4, a5, a6⟩ := ha
  obtain ⟨b1, b2, b3, b4, b5, b6⟩ := hb
  simp only [dtKey, dtLex]
  omega

/-! ## C5 and C9: keyed lists and stability -/

/-- Dropping the keys from the keyed list recovers the input. -/
theorem keyedEvents_map_snd : ∀ {xs : List Event} {ks : List (DT × Event)},
    keyedEvents xs = some ks → ks.map Prod.snd = xs
  | [], ks, h => by
    simp only [keyedEvents, Option.some.injEq] at h
    subst h
    rfl
  | e :: es, ks, h => by
    simp only [keyedEvents] at h
    cases he : event_dt e with
    | none => rw [he] at h; exact absurd h (by simp)
    | some t =>
      rw [he] at h
      cases hes : keyedEvents es with
      | none => rw [hes] at h; exact absurd h (by simp)
      | some rest =>
        rw [hes] at h
        simp only [Option.some.injEq] at h
        subst h
        simp [keyedEvents_map_snd hes]

/-- Every pair in the keyed list carries its event's parsed key. -/
theorem keyedEvents_keys : ∀ {xs : List Event} {ks : List (DT × Event)},
    keyedEvents xs = some ks → ∀ p ∈ ks, event_dt p.2 = some p.1
  | [], ks, h => by
    simp only [keyedEvents, Option.some.injEq] at h
    subst h
    simp
  | e :: es, ks, h => by
    simp only [keyedEvents] at h
    cases he : event_dt e with
    | none => rw [he] at h; exact absurd h (by simp)
    | some t =>
      rw [he] at h
      cases hes : keyedEvents es with
      | none => rw [hes] at h; exact absurd h (by simp)
      | some rest =>
        rw [hes] at h
        simp only [Option.some.injEq] at h
        subst h
        intro p hp
        rcases List.mem_cons.mp hp with hp | hp
        · subst hp; exact he
        · exact keyedEvents_keys hes p hp

/-- When every key parses, keying succeeds. -/
theorem keyedEvents_isSome : ∀ {xs : List Event},
    (∀ e ∈ xs, (event_dt e).isSome) → ∃ ks, keyedEvents xs = some ks
  | [], _ => ⟨[], rfl⟩
  | e :: es, h => by
    have he := h e (List.mem_cons_self _ _)
    obtain ⟨t, ht⟩ := Option.isSome_iff_exists.mp he
    obtain ⟨ks, hks⟩ := keyedEvents_isSome fun x hx => h x (List.mem_cons_of_mem _ hx)
    exact ⟨(t, e) :: ks, by simp [keyedEvents, ht, hks]⟩

/-- When some key fails to parse, keying fails. -/
theorem keyedEvents_none : ∀ {xs : List Event},
    (∃ e ∈ xs, event_dt e = none) → keyedEvents xs = none
  | [], h => by simp at h
  | e :: es, h => by
    rcases h with ⟨x, hx, hnone⟩
    rcases List.mem_cons.mp hx with hx | hx
    · subst hx
      simp [keyedEvents, hnone]
    · have := keyedEvents_none ⟨x, hx, hnone⟩
      cases he : event_dt e <;> simp [keyedEvents, he, this]

/-- Re-keying a keyed list succeeds and recovers it. -/
theorem keyedEvents_of_keys : ∀ {ks : List (DT × Event)},
    (∀ p ∈ ks, event_dt p.2 = some p.1) → keyedEvents (ks.map Prod.snd) = some ks
  | [], _ => rfl
  | p :: ps, h => by
    have hp := h p (List.mem_cons_self _ _)
    have hps := keyedEvents_of_keys fun q hq => h q (List.mem_cons_of_mem _ hq)
    simp [keyedEvents, hp, hps]

/-- Inserting into the keyed list does not reorder the entries sharing any
fixed key: entries skipped over compare strictly below the inserted key. -/
theorem orderedInsert_filter_key (t : DT) (x : DT × Event) (l : List (DT × Event)) :
    (List.orderedInsert dtKeyLe x l).filter (fun p => decide (p.1 = t)) =
      ((x :: l).filter (fun p => decide (p.1 = t))) := by
  induction l with
  | nil => rfl
  | cons b bs ih =>
    by_cases hle : dtKeyLe x b
    · simp [List.orderedInsert, hle]
    · have hb : dtKey b.1 < dtKey x.1 := Nat.lt_of_not_le hle
      simp only [List.orderedInsert, if_neg hle]
      by_cases hbt : b.1 = t
      · by_cases hxt : x.1 = t
        · exact absurd (hxt.trans hbt.symm ▸ rfl : dtKey x.1 = dtKey b.1) (Nat.ne_of_gt hb)
        · simp [List.filter_cons, hbt, hxt, ih]
      · simp [List.filter_cons, hbt, ih]

/-- Insertion sort keeps the entries of any fixed key in input order. -/
theorem insertionSort_filter_key (t : DT) (l : List (DT × Event)) :
    (List.insertionSort dtKeyLe l).filter (fun p => decide (p.1 = t)) =
      l.filter (fun p => decide (p.1 = t)) := by
  induction l with
  | nil => rfl
  | cons x xs ih =>
    rw [List.insertionSort, orderedInsert_filter_key]
    simp only [List.filter_cons, ih]

/-- Filtering the events of a fixed key commutes with dropping the keys. -/
theorem filter_map_snd_key (t : DT) : ∀ {l : List (DT × Event)},
    (∀ p ∈ l, event_dt p.2 = some p.1) →
    (l.map Prod.snd).filter (fun e => decide (event_dt e = some t)) =
      (l.filter (fun p => decide (p.1 = t))).map Prod.snd
  | [], _ => rfl
  | p :: ps, h => by
    have hp := h p (List.mem_cons_self _ _)
    have hps := filter_map_snd_key t fun q hq => h q (List.mem_cons_of_mem _ hq)
    by_cases hpt : p.1 = t
    · simp [List.filter_cons, hp, hpt, hps]
    · simp [List.filter_cons, hp, hpt, hps]

/-! ## C5 -/

/-- C5: when every event's `(date, time)` key parses under
`strptime("%Y-%m-%d %H:%M")` — which covers every well-formed
`YYYY-MM-DD` / `HH:MM` pair — `sort_events` succeeds with a permutation of
the input that is sorted ascending by the parsed calendar date and
time-of-day (lexicographically on year, month, day, hour, minute), stably —
the events sharing any fixed key keep their input order; and when some
event's key cannot be parsed with that format, `sort_events` fails with the
malformed-date error (the `ValueError` escaping `strptime`). -/
theorem sort_events_spec (xs : List Event) :
    ((∀ e ∈ xs, (event_dt e).isSome) →
      ∃ ys, sort_events xs = Except.ok ys ∧
        List.Perm ys xs ∧
        List.Pairwise chronoLe ys ∧
        ∀ t : DT, ys.filter (fun e => decide (event_dt e = some t)) =
          xs.filter (fun e => decide (event_dt e = some t))) ∧
    ((∃ e ∈ xs, event_dt e = none) →
      sort_events xs = Except.error SortError.malformedDate) := by
  constructor
  · intro hwf
    obtain ⟨ks, hks⟩ := keyedEvents_isSome hwf
    have hkeysSorted : ∀ p ∈ List.insertionSort dtKeyLe ks, event_dt p.2 = some p.1 :=
      fun p hp => keyedEvents_keys hks p ((List.perm_insertionSort dtKeyLe ks).subset hp)
    refine ⟨(List.insertionSort dtKeyLe ks).map Prod.snd, by simp [sort_events, hks],
      ?_, ?_, ?_⟩
    · have hperm := (List.perm_insertionSort dtKeyLe ks).map Prod.snd
      rwa [keyedEvents_map_snd hks] at hperm
    · refine List.pairwise_map.mpr ?_
      refine List.Pairwise.imp_of_mem ?_ (List.sorted_insertionSort dtKeyLe ks)
      intro a b ha hb hr
      have hka := hkeysSorted a ha
      have hkb := hkeysSorted b hb
      exact ⟨a.1, b.1, hka, hkb,
        (dtKey_le_iff_dtLex (strptimeDT_bounds hka) (strptimeDT_bounds hkb)).mp hr⟩
    · intro t
      calc ((List.insertionSort dtKeyLe ks).map Prod.snd).filter
            (fun e => decide (event_dt e = some t))
          = ((List.insertionSort dtKeyLe ks).filter
              (fun p => decide (p.1 = t))).map Prod.snd :=
            filter_map_snd_key t hkeysSorted
        _ = (ks.filter (fun p => decide (p.1 = t))).map Prod.snd := by
            rw [insertionSort_filter_key]
        _ = (ks.map Prod.snd).filter (fun e => decide (event_dt e = some t)) :=
            (filter_map_snd_key t (keyedEvents_keys hks)).symm
        _ = xs.filter (fun e => decide (event_dt e = some t)) := by
            rw [keyedEvents_map_snd hks]
  · intro hbad
    simp [sort_events, keyedEvents_none hbad]

/-- Witness for C5: the spec's scenario sorts (April before May), and a
malformed date is reported as the malformed-date error. -/
theorem sort_events_spec_witness :
    (∃ ys, sort_events [evA, evB] = Except.ok ys ∧
      List.Perm ys [evA, evB] ∧
      List.Pairwise chronoLe ys ∧
      ∀ t : DT, ys.filter (fun e => decide (event_dt e = some t)) =
        [evA, evB].filter (fun e => decide (event_dt e = some t))) ∧
    sort_events [evA, evBad] = Except.error SortError.malformedDate :=
  ⟨(sort_events_spec [evA, evB]).1 (by decide),
   (sort_events_spec [evA, evBad]).2 ⟨evBad, by decide, by decide⟩⟩

/-! ## C9 -/

/-- C9: sorting is idempotent — re-sorting the output returns it unchanged —
and stable for ties: the events sharing any fixed `(date, time)` key appear
in the output in their input order. -/
theorem sort_events_idempotent (xs ys : List Event) (h : sort_events xs = Except.ok ys) :
    sort_events ys = Except.ok ys ∧
    ∀ t : DT, ys.filter (fun e => decide (event_dt e = some t)) =
      xs.filter (fun e => decide (event_dt e = some t)) := by
  cases hks : keyedEvents xs with
  | none =>
    rw [sort_events, hks] at h
    exact absurd h (by simp)
  | some ks =>
    have hys : ys = (List.insertionSort dtKeyLe ks).map Prod.snd := by
      simp only [sort_events, hks, Except.ok.injEq] at h
      exact h.symm
    subst hys
    have hkeysSorted : ∀ p ∈ List.insertionSort dtKeyLe ks, event_dt p.2 = some p.1 :=
      fun p hp => keyedEvents_keys hks p ((List.perm_insertionSort dtKeyLe ks).subset hp)
    have hkeyed : keyedEvents ((List.insertionSort dtKeyLe ks).map Prod.snd) =
        some (List.insertionSort dtKeyLe ks) := keyedEvents_of_keys hkeysSorted
    constructor
    · have heq : List.insertionSort dtKeyLe (List.insertionSort dtKeyLe ks) =
          List.insertionSort dtKeyLe ks :=
        List.Sorted.insertionSort_eq (List.sorted_insertionSort dtKeyLe ks)
      simp [sort_events, hkeyed, heq]
    · intro t
      calc ((List.insertionSort dtKeyLe ks).map Prod.snd).filter
            (fun e => decide (event_dt e = some t))
          = ((List.insertionSort dtKeyLe ks).filter
              (fun p => decide (p.1 = t))).map Prod.snd :=
            filter_map_snd_key t hkeysSorted
        _ = (ks.filter (fun p => decide (p.1 = t))).map Prod.snd := by
            rw [insertionSort_filter_key]
        _ = (ks.map Prod.snd).filter (fun e => decide (event_dt e = some t)) :=
            (filter_map_snd_key t (keyedEvents_keys hks)).symm
        _ = xs.filter (fun e => decide (event_dt e = some t)) := by
            rw [keyedEvents_map_snd hks]

/-- Witness for C9: re-sorting the sorted scenario list returns it
unchanged. -/
theorem sort_events_idempotent_witness :
    sort_events [evB, evA] = Except.ok [evB, evA] :=
  (sort_events_idempotent [evA, evB] [evB, evA] (by rfl)).1

end EventApp
